import Mathlib

/-!
Verification of the Surfactant SBOM relationship-resolution core: the
filesystem/symlink tree (fs_tree), the path resolver, the serialization
round-trip reconstruction, the PE and Java relationship resolvers, the
Java legacy export-dict cache, and `ContextEntry.get_pconf`.

The PE and Java resolvers and `get_pconf` are embedded directly from
`surfactant/relationships/pe_relationship.py`,
`surfactant/relationships/java_relationship.py` and
`surfactant/context.py`.  The SBOM store and fs_tree
(`surfactant/sbomtypes`), `surfactant/utils/paths.normalize_path` and
`surfactant/relationships/_internal/windows_utils.find_installed_software`
are not part of the provided sources; those definitions are modelled from
the specification (and the behavior pinned down by
`tests/sbomtypes/test_fs_tree.py` and
`tests/relationships/test_java_relationship.py`) and are marked as such.
-/

/-- Lower-case a string character by character (lookup-time case folding). -/
def lowerStr (s : String) : String := ⟨s.data.map Char.toLower⟩

/-- Modelled from the spec: the Path Normalizer converts backslashes to
forward slashes and leaves case untouched (`surfactant/utils/paths.py` is
not in the provided sources). -/
def backslashToSlash (s : String) : String :=
  ⟨s.data.map (fun c => if c = '\\' then '/' else c)⟩

/-- Split a list of characters at every forward slash. -/
def splitSlashGo : List Char → List Char → List String
  | [], acc => [⟨acc.reverse⟩]
  | c :: rest, acc =>
    if c = '/' then (⟨acc.reverse⟩ : String) :: splitSlashGo rest []
    else splitSlashGo rest (c :: acc)

/-- Split a (already slash-normalized) path into its `/`-separated parts. -/
def splitSlash (s : String) : List String := splitSlashGo s.data []

/-- Join path parts with forward slashes. -/
def joinSlash : List String → String
  | [] => ""
  | x :: xs => xs.foldl (fun a b => a ++ "/" ++ b) x

/-- Modelled from the spec: `normalize(path, base?)` joins a base directory
with a file name after converting backslashes to forward slashes
(`surfactant/utils/paths.py` is not in the provided sources). -/
def normalize_path (base fname : String) : String :=
  let b := backslashToSlash base
  let f := backslashToSlash fname
  if b.data.getLast? = some '/' then b ++ f else b ++ "/" ++ f

/-- The parent directory of a path in normalized POSIX form, as
`pathlib.PureWindowsPath(ipath).parent.as_posix()` computes it. -/
def winParent (p : String) : String :=
  let parts := splitSlash (backslashToSlash p)
  if parts.length ≤ 1 then "."
  else
    let par := joinSlash parts.dropLast
    if par = "" then "/" else par

/-- Case- and slash-insensitive canonical form used for
`PureWindowsPath` equality comparisons. -/
def canonWin (p : String) : String := lowerStr (backslashToSlash p)

/-- Join a probe directory and a file name as `PureWindowsPath(pdir, filename)`. -/
def winJoin (pdir fname : String) : String :=
  backslashToSlash pdir ++ "/" ++ backslashToSlash fname

/-- Equality of two paths under `PureWindowsPath` semantics (case- and
separator-insensitive). -/
def winPathEq (a b : String) : Bool := canonWin a == canonWin b

/-- All nonempty slash-prefixes of a normalized path, shortest first; the
last element is the full path itself. -/
def pathPrefixes (p : String) : List String :=
  let parts := splitSlash p
  ((List.range parts.length).map
    (fun i => joinSlash (parts.take (i + 1)))).filter (fun s => s ≠ "")

/-- Consecutive pairs of a list, used to build containment-edge chains. -/
def consecPairs : List String → List (String × String)
  | a :: b :: rest => (a, b) :: consecPairs (b :: rest)
  | _ => []

/-- Lookup in a Python-dict-like association list (first binding wins;
`dictInsert` keeps at most one binding per key). -/
def dictLookup {α : Type} (l : List (String × α)) (k : String) : Option α :=
  (l.find? (fun p => p.1 == k)).map (·.2)

/-- Python dict assignment `d[k] = v`: overwrite the binding in place if the
key is present, else append it. -/
def dictInsert {α : Type} : List (String × α) → String → α → List (String × α)
  | [], k, v => [(k, v)]
  | (k', v') :: rest, k, v =>
    if k' = k then (k, v) :: rest else (k', v') :: dictInsert rest k v

/-- Python `if x not in l: l.append(x)` (also models adding to a set). -/
def appendIfNew {α : Type} [DecidableEq α] (l : List α) (x : α) : List α :=
  if x ∈ l then l else l ++ [x]

/-- Kind of a filesystem-graph edge: parent-directory containment or a
symlink alias. -/
inductive EdgeKind where
  | contains : EdgeKind
  | symlink : EdgeKind
deriving DecidableEq, Repr

/-- A directed edge of the filesystem graph. -/
structure FsEdge where
  src : String
  dst : String
  kind : EdgeKind
deriving DecidableEq, Repr

/-- Modelled from the spec: the Filesystem Graph (fs_tree) of
`surfactant/sbomtypes` (not in the provided sources): path nodes,
containment and symlink-alias edges, owner tags on terminal install-path
nodes, and the queue of pending directory symlinks. -/
structure FsTree where
  nodes : List String := []
  edges : List FsEdge := []
  owners : List (String × String) := []
  pendingDirSymlinks : List (String × String) := []
deriving DecidableEq, Repr

/-- Add a node if not already present (idempotent insertion). -/
def FsTree.addNode (t : FsTree) (n : String) : FsTree :=
  if n ∈ t.nodes then t else { t with nodes := t.nodes ++ [n] }

/-- Add an edge (and both endpoint nodes) if not already present. -/
def FsTree.addEdge (t : FsTree) (a b : String) (k : EdgeKind) : FsTree :=
  let t := (t.addNode a).addNode b
  if (⟨a, b, k⟩ : FsEdge) ∈ t.edges then t
  else { t with edges := t.edges ++ [⟨a, b, k⟩] }

/-- Modelled from the spec: `add_path` inserts every intermediate directory
segment as a containment-edge chain ending at the path, and tags the
terminal node with the owning software UUID (last write wins). -/
def FsTree.add_path (t : FsTree) (path : String) (owner : Option String) : FsTree :=
  let p := backslashToSlash path
  let prefixes := pathPrefixes p
  let t := match prefixes with
    | [] => t
    | x :: _ => t.addNode x
  let t := (consecPairs prefixes).foldl
    (fun t pq => t.addEdge pq.1 pq.2 EdgeKind.contains) t
  match owner with
  | some u => { t with owners := dictInsert t.owners p u }
  | none => t

/-- Node existence query (`fs.has_node`). -/
def FsTree.has_node (t : FsTree) (p : String) : Bool := t.nodes.contains p

/-- Edge existence query (`fs.has_edge`). -/
def FsTree.has_edge (t : FsTree) (a b : String) : Bool :=
  t.edges.any (fun e => e.src == a && e.dst == b)

/-- The owner UUID tag of a node, if any. -/
def FsTree.ownerOf (t : FsTree) (p : String) : Option String := dictLookup t.owners p

/-- The first outgoing symlink-alias edge from a node, if any. -/
def FsTree.symlinkSucc (t : FsTree) (cur : String) : Option String :=
  (t.edges.find? (fun e => e.src == cur && e.kind == EdgeKind.symlink)).map (·.dst)

/-- Modelled from the spec: the Path Resolver loop.  If the current node is
tagged with an owner UUID return it; else follow the outgoing alias edge,
returning `none` when there is none or when the destination was already
visited within this call (cycle guard).  `fuel` only makes the recursion
structural; `FsTree.fuelBound` is always enough (proved below). -/
def resolveGo (t : FsTree) : Nat → List String → String → Option String
  | 0, _, _ => none
  | Nat.succ f, visited, cur =>
    match t.ownerOf cur with
    | some u => some u
    | none =>
      match t.symlinkSucc cur with
      | none => none
      | some d => if d ∈ visited then none else resolveGo t f (d :: visited) d

/-- Fuel that always suffices for `resolveGo` (one more than the number of
edges, which bounds the number of distinct alias destinations). -/
def FsTree.fuelBound (t : FsTree) : Nat := t.edges.length + 1

/-- Run the resolver loop with a given fuel from a start node. -/
def FsTree.resolveFuel (t : FsTree) (f : Nat) (start : String) : Option String :=
  resolveGo t f [start] start

/-- Resolve a start node to its owning software UUID. -/
def FsTree.resolve (t : FsTree) (start : String) : Option String :=
  t.resolveFuel t.fuelBound start

/-- Destinations of all symlink-alias edges of the graph. -/
def FsTree.symlinkDsts (t : FsTree) : List String :=
  (t.edges.filter (fun e => e.kind == EdgeKind.symlink)).map (·.dst)

/-- Per-Java-class metadata record: declared imports and exports. -/
structure JavaClassInfo where
  javaImports : List String := []
  javaExports : List String := []
deriving DecidableEq, Repr

/-- The keys of a metadata dict record that the modelled core interprets
(`javaClasses`, and the symlink-alias records used by fs_tree
reconstruction); all other extractor keys are opaque. -/
structure MetaDict where
  javaClasses : Option (List (String × JavaClassInfo)) := none
  installPathSymlinks : Option (List String) := none
  fileNameSymlinks : Option (List String) := none
deriving DecidableEq, Repr

/-- A metadata record attached to a software entry: a dict, or some other
object (plugins may emit dataclasses/objects, which the key checks skip). -/
inductive MetaItem where
  | dict (d : MetaDict) : MetaItem
  | nonDict : MetaItem
deriving DecidableEq, Repr

/-- A software entity of the SBOM store (the fields the core reads). -/
structure Software where
  UUID : String
  fileName : List String := []
  installPath : Option (List String) := none
  metadata : List MetaItem := []
  sha256 : Option String := none
deriving DecidableEq, Repr

/-- A relationship edge `Relationship(xUUID, yUUID, relationship)`. -/
structure Relationship where
  xUUID : String
  yUUID : String
  relationship : String
deriving DecidableEq, Repr

/-- Modelled from the spec: the SBOM store of `surfactant/sbomtypes` (not in
the provided sources): the software collection, the relationship list, and
the derived filesystem graph. -/
structure SBOM where
  software : List Software := []
  relationships : List Relationship := []
  fs_tree : FsTree := {}
deriving DecidableEq, Repr

/-- The empty SBOM store. -/
def SBOM.empty : SBOM := {}

/-- Modelled from the spec: `add_software` inserts the entity and, for every
install path, calls `add_path` tagging the terminal node with its UUID. -/
def SBOM.add_software (sbom : SBOM) (sw : Software) : SBOM :=
  { sbom with
    software := sbom.software ++ [sw]
    fs_tree := (sw.installPath.getD []).foldl
      (fun t ip => t.add_path ip (some sw.UUID)) sbom.fs_tree }

/-- Kind of a recorded symlink. -/
inductive SymlinkKind where
  | file : SymlinkKind
  | directory : SymlinkKind
deriving DecidableEq, Repr

/-- Modelled from the spec: `record_symlink` normalizes both paths and
inserts an alias edge; a directory symlink is additionally queued for
deferred descendant-chaining. -/
def SBOM.record_symlink (sbom : SBOM) (src tgt : String) (subtype : SymlinkKind) : SBOM :=
  let s := backslashToSlash src
  let d := backslashToSlash tgt
  let t := sbom.fs_tree.addEdge s d EdgeKind.symlink
  let t := if subtype = SymlinkKind.directory then
      { t with pendingDirSymlinks := t.pendingDirSymlinks ++ [(s, d)] }
    else t
  { sbom with fs_tree := t }

/-- Modelled from the spec: `get_software_by_path` normalizes the query,
locates the start node (case-folded when `case_insensitive`), resolves it
through the fs_tree, and maps the owner UUID back to the Software entity. -/
def SBOM.get_software_by_path (sbom : SBOM) (path : String) (case_insensitive : Bool) :
    Option Software :=
  let p := backslashToSlash path
  let start :=
    if case_insensitive then
      ((sbom.fs_tree.nodes.find? (fun n => lowerStr n == lowerStr p)).getD p)
    else p
  match sbom.fs_tree.resolve start with
  | some u => sbom.software.find? (fun s => s.UUID == u)
  | none => none

/-- The persisted/exported document: software entities and relationships,
with the fs_tree excluded. -/
structure SerializedSBOM where
  software : List Software := []
  relationships : List Relationship := []
deriving DecidableEq, Repr

/-- Modelled from the spec: serialization exports the software entities and
relationships and excludes the Filesystem Graph. -/
def SBOM.to_serialized (sbom : SBOM) : SerializedSBOM :=
  { software := sbom.software, relationships := sbom.relationships }

/-- Modelled from the spec: reconstruction (`from_json` followed by
`_rebuild_fs_tree_from_metadata`) re-adds every software entity to the
fs_tree and then, for every `installPathSymlinks` metadata record, records
a file symlink from each alias path to each of the entity's install paths. -/
def SBOM.from_serialized (d : SerializedSBOM) : SBOM :=
  let base := d.software.foldl (fun s sw => s.add_software sw)
    { software := [], relationships := d.relationships, fs_tree := {} }
  d.software.foldl
    (fun s sw =>
      sw.metadata.foldl
        (fun s mi =>
          match mi with
          | MetaItem.nonDict => s
          | MetaItem.dict md =>
            match md.installPathSymlinks with
            | none => s
            | some aliases =>
              aliases.foldl
                (fun s al =>
                  (sw.installPath.getD []).foldl
                    (fun s ip => s.record_symlink al ip SymlinkKind.file) s)
                s)
        s)
    base

/-- The PE import metadata dict: each field is `some entries` when the key is
present (a key present with a Python-falsy value collapses to `some []`, as
`metadata[field] or []` does). -/
structure PEMetadata where
  peImport : Option (List String) := none
  peBoundImport : Option (List String) := none
  peDelayImport : Option (List String) := none
deriving DecidableEq, Repr

/-- True if any known PE import field is present in the metadata
(`pe_relationship.has_required_fields`). -/
def pe_has_required_fields (m : PEMetadata) : Bool :=
  m.peImport.isSome || m.peBoundImport.isSome || m.peDelayImport.isSome

/-- Probe directories for a subject: the parent directories of its install
paths in normalized POSIX form (`pe_relationship.py` lines 174-179). -/
def probedirs (sw : Software) : List String :=
  (sw.installPath.getD []).map winParent

/-- Modelled from the spec: `find_installed_software` of
`_internal/windows_utils.py` (not in the provided sources).  Per the PE
docstring and spec §4.5 it matches `PureWindowsPath(probedir, filename)`
against the install paths of all entries in the store; it receives no
subject argument, so it cannot exclude the subject itself. -/
def find_installed_software (sbom : SBOM) (pdirs : List String) (filename : String) :
    List Software :=
  sbom.software.filter
    (fun e => (e.installPath.getD []).any
      (fun ip => pdirs.any (fun pd => winPathEq (winJoin pd filename) ip)))

/-- Phase 1 of PE resolution for one import token: probe each parent
directory through `get_software_by_path` (case-insensitive), collecting the
distinct matched UUIDs other than the subject's own
(`pe_relationship.py` lines 169-194). -/
def pePhase1Uuids (sbom : SBOM) (sw : Software) (fname : String) : List String :=
  (probedirs sw).foldl
    (fun acc dir =>
      match sbom.get_software_by_path (normalize_path dir fname) true with
      | some m => if m.UUID ≠ sw.UUID then appendIfNew acc m.UUID else acc
      | none => acc)
    []

/-- Phase 2 of PE resolution for one import token: the distinct UUIDs of the
entries `find_installed_software` returns (`pe_relationship.py` lines 200-204). -/
def peLegacyUuids (sbom : SBOM) (sw : Software) (fname : String) : List String :=
  (find_installed_software sbom (probedirs sw) fname).foldl
    (fun acc e => appendIfNew acc e.UUID) []

/-- The matched UUID set for one token: the legacy fallback is consulted only
when phase 1 found nothing (`pe_relationship.py` line 200 `if not matched_uuids`). -/
def peTokenUuids (sbom : SBOM) (sw : Software) (fname : String) : List String :=
  let p1 := pePhase1Uuids sbom sw fname
  if p1.isEmpty then peLegacyUuids sbom sw fname else p1

/-- Emit the relationships for one import token, skipping empty names and
appending each `Uses` edge not already present
(`pe_relationship.py` lines 160-217). -/
def peEmitToken (sbom : SBOM) (sw : Software) (rels : List Relationship)
    (fname : String) : List Relationship :=
  if fname = "" then rels
  else (peTokenUuids sbom sw fname).foldl
    (fun rels u => appendIfNew rels ⟨sw.UUID, u, "Uses"⟩) rels

/-- `get_windows_pe_dependencies`: resolve each imported DLL name in two
phases and emit deduplicated `Uses` relationships; if the subject has no
install path, resolution is skipped entirely. -/
def get_windows_pe_dependencies (sbom : SBOM) (sw : Software)
    (peImports : List String) : List Relationship :=
  match sw.installPath with
  | none => []
  | some _ => peImports.foldl (peEmitToken sbom sw) []

/-- The PE plugin hook `establish_relationships`: `none` when no PE import
key is present, else the concatenation of the per-import-kind results for
`peImport`, `peBoundImport` and `peDelayImport` in that order. -/
def pe_establish_relationships (sbom : SBOM) (software : Software)
    (m : PEMetadata) : Option (List Relationship) :=
  if pe_has_required_fields m then
    some (((m.peImport.map (get_windows_pe_dependencies sbom software)).getD [])
      ++ ((m.peBoundImport.map (get_windows_pe_dependencies sbom software)).getD [])
      ++ ((m.peDelayImport.map (get_windows_pe_dependencies sbom software)).getD []))
  else none

/-- The `(export, UUID)` pairs one metadata record of a software entry
contributes to the legacy Java export dict
(`java_relationship.py` lines 37-45). -/
def metaExportPairs (uuid : String) (mi : MetaItem) : List (String × String) :=
  match mi with
  | MetaItem.nonDict => []
  | MetaItem.dict d =>
    match d.javaClasses with
    | none => []
    | some jc =>
      if jc.isEmpty then []
      else jc.flatMap (fun ci => ci.2.javaExports.map (fun e => (e, uuid)))

/-- All `(export, UUID)` pairs a software entry contributes, in scan order. -/
def exportPairs (sw : Software) : List (String × String) :=
  sw.metadata.flatMap (metaExportPairs sw.UUID)

/-- Build the legacy export dict by scanning every entry's metadata; a later
`supplied_by[export] = UUID` assignment overwrites an earlier one
(`_ExportDict.create_export_dict`, `java_relationship.py` lines 34-45). -/
def buildExportMap (sbom : SBOM) : List (String × String) :=
  (sbom.software.flatMap exportPairs).foldl
    (fun acc p => dictInsert acc p.1 p.2) []

/-- The `_ExportDict` class-level state: the weakref to the SBOM instance
modelled as a non-owning identity token, and the export lookup table. -/
structure ExportDictState where
  sbomRef : Option Nat := none
  supplied_by : List (String × String) := []
deriving DecidableEq, Repr

/-- `_ExportDict.create_export_dict`: reuse the table when the weakref still
points at the same SBOM instance (identified by `sid`), else rebuild it from
scratch by scanning the new store (`java_relationship.py` lines 25-45). -/
def ExportDict.create_export_dict (st : ExportDictState) (sid : Nat)
    (sbom : SBOM) : ExportDictState :=
  if st.sbomRef = some sid then st
  else { sbomRef := some sid, supplied_by := buildExportMap sbom }

/-- `_ExportDict.get_supplier`: look the import name up in the table. -/
def ExportDict.get_supplier (st : ExportDictState) (import_name : String) :
    Option String :=
  dictLookup st.supplied_by import_name

/-- The per-import emission loop of the Java resolver: phase 1 (fs_tree) is
not implemented (TODO in the source), so the supplier comes from the legacy
export dict alone; a resolved, non-empty, non-self supplier yields a `Uses`
edge appended if not already present (`java_relationship.py` lines 80-106). -/
def javaResolveImports (supplied : List (String × String)) (sw : Software)
    (jc : List (String × JavaClassInfo)) : List Relationship :=
  jc.foldl
    (fun rels ci =>
      ci.2.javaImports.foldl
        (fun rels imp =>
          match dictLookup supplied imp with
          | none => rels
          | some u =>
            if u ≠ "" ∧ u ≠ sw.UUID then appendIfNew rels ⟨sw.UUID, u, "Uses"⟩
            else rels)
        rels)
    []

/-- The Java plugin hook `establish_relationships`: `none` unless the
metadata is a dict with a `javaClasses` key (`has_required_fields`); the
export dict built for this store instance supplies all lookups. -/
def java_establish_relationships (sbom : SBOM) (software : Software)
    (md : MetaItem) : Option (List Relationship) :=
  match md with
  | MetaItem.nonDict => none
  | MetaItem.dict d =>
    match d.javaClasses with
    | none => none
    | some jc => some (javaResolveImports (buildExportMap sbom) software jc)

/-- Modelled from the spec (for refinement comparison only, following the
spec's words in §4.5 Phase 1): structural resolution of one Java import
token — derive probe locations from the subject's install-path parents,
combine each with the token via the Path Normalizer, query
`get_software_by_path` (case-sensitive: Java ecosystems are not
case-insensitive filesystems), and collect distinct non-self UUIDs. -/
def javaPhase1Structural_spec (sbom : SBOM) (sw : Software) (token : String) :
    List String :=
  (probedirs sw).foldl
    (fun acc dir =>
      match sbom.get_software_by_path (normalize_path dir token) false with
      | some m => if m.UUID ≠ sw.UUID then appendIfNew acc m.UUID else acc
      | none => acc)
    []

/-- A Python value, as far as `get_pconf` inspects one: its truthiness and
dict subscripting. -/
inductive PyVal where
  | vNone : PyVal
  | vBool : Bool → PyVal
  | vInt : Int → PyVal
  | vStr : String → PyVal
  | vList : List PyVal → PyVal
  | vDict : List (String × PyVal) → PyVal

/-- Python truthiness of a value. -/
def PyVal.truthy : PyVal → Bool
  | PyVal.vNone => false
  | PyVal.vBool b => b
  | PyVal.vInt n => n != 0
  | PyVal.vStr s => !s.isEmpty
  | PyVal.vList l => !l.isEmpty
  | PyVal.vDict d => !d.isEmpty

/-- An exception a `get_pconf` call can raise. -/
inductive PyErr where
  | keyError : String → PyErr
  | typeError : PyErr
deriving DecidableEq, Repr

/-- Python subscript `v[k]`: a KeyError on a dict without the key, a
TypeError on a non-dict. -/
def PyVal.getItem : PyVal → String → Except PyErr PyVal
  | PyVal.vDict d, k =>
    match dictLookup d k with
    | some v => Except.ok v
    | none => Except.error (PyErr.keyError k)
  | _, _ => Except.error PyErr.typeError

/-- `ContextEntry.get_pconf(name, conf_key, default)` as a function of the
entry's `pluginConf` field (`context.py` lines 50-82): a falsy `pluginConf`
returns the default; `pluginConf[name]` may raise KeyError; a falsy module
value returns the default; `module[conf_key]` may raise; a falsy field value
returns the default; otherwise the field is returned. -/
def get_pconf (pluginConf : Option (List (String × PyVal)))
    (name conf_key : String) (dflt : PyVal) : Except PyErr PyVal :=
  match pluginConf with
  | none => Except.ok dflt
  | some pc =>
    if pc.isEmpty then Except.ok dflt
    else
      match dictLookup pc name with
      | none => Except.error (PyErr.keyError name)
      | some module =>
        if !module.truthy then Except.ok dflt
        else
          match module.getItem conf_key with
          | Except.error e => Except.error e
          | Except.ok field =>
            if !field.truthy then Except.ok dflt else Except.ok field

/-- Appending an element only when absent preserves distinctness. -/
lemma nodup_appendIfNew {α : Type} [DecidableEq α] (l : List α) (x : α)
    (h : l.Nodup) : (appendIfNew l x).Nodup := by
  unfold appendIfNew
  by_cases hx : x ∈ l
  · simpa [hx]
  · simp [hx, List.nodup_append, h]

/-- A left fold whose step preserves distinctness preserves distinctness. -/
lemma nodup_foldl {α β : Type} (f : List α → β → List α)
    (h : ∀ acc x, acc.Nodup → (f acc x).Nodup) :
    ∀ (l : List β) (init : List α), init.Nodup → (l.foldl f init).Nodup := by
  intro l
  induction l with
  | nil => intro init hi; simpa using hi
  | cons x xs ih => intro init hi; exact ih (f init x) (h init x hi)

/-- Folding `appendIfNew` of fresh distinct relationships over an
accumulator appends exactly their list. -/
lemma foldl_appendIfNew_map (s k : String) :
    ∀ (us : List String) (acc : List Relationship), us.Nodup →
      (∀ u ∈ us, (⟨s, u, k⟩ : Relationship) ∉ acc) →
      us.foldl (fun rels u => appendIfNew rels ⟨s, u, k⟩) acc =
        acc ++ us.map (fun u => ⟨s, u, k⟩) := by
  intro us
  induction us with
  | nil => intro acc _ _; simp
  | cons u rest ih =>
    intro acc hnd hacc
    have hu : (⟨s, u, k⟩ : Relationship) ∉ acc := hacc u (by simp)
    have hstep : appendIfNew acc (⟨s, u, k⟩ : Relationship) = acc ++ [⟨s, u, k⟩] := by
      simp [appendIfNew, hu]
    have hrest : ∀ v ∈ rest, (⟨s, v, k⟩ : Relationship) ∉ acc ++ [⟨s, u, k⟩] := by
      intro v hv
      have hvne : v ≠ u := by
        intro hvu; exact (List.nodup_cons.mp hnd).1 (hvu ▸ hv)
      simp [List.mem_append, hacc v (by simp [hv]), Relationship.mk.injEq, hvne]
    have := ih (acc ++ [⟨s, u, k⟩]) (List.nodup_cons.mp hnd).2 hrest
    simp only [List.foldl_cons, hstep, this, List.map_cons, List.append_assoc,
      List.singleton_append]

/-- Filtering with a pointwise-stronger predicate never yields a longer list. -/
lemma length_filter_mono {α : Type} (l : List α) (p q : α → Bool)
    (h : ∀ s, p s = true → q s = true) :
    (l.filter p).length ≤ (l.filter q).length := by
  induction l with
  | nil => simp
  | cons x xs ih =>
    cases hp : p x
    · cases hq : q x
      · simpa [List.filter_cons, hp, hq] using ih
      · simp only [List.filter_cons, hp, hq, if_false, if_true, List.length_cons]
        exact Nat.le_succ_of_le ih
    · have hq : q x = true := h x hp
      simp only [List.filter_cons, hp, hq, if_true, List.length_cons]
      exact Nat.succ_le_succ ih

/-- Marking one present, unvisited element as visited strictly shrinks the
set of unvisited elements. -/
lemma length_filter_visit_lt (l v : List String) (d : String)
    (hd : d ∈ l) (hv : d ∉ v) :
    (l.filter (fun s => decide (s ∉ d :: v))).length <
      (l.filter (fun s => decide (s ∉ v))).length := by
  induction l with
  | nil => cases hd
  | cons x xs ih =>
    by_cases hxd : x = d
    · subst hxd
      have h1 : (decide (x ∉ x :: v)) = false := by simp
      have h2 : (decide (x ∉ v)) = true := by simpa using hv
      simp only [List.filter_cons, h1, h2, if_false, if_true, List.length_cons]
      have hmono : (xs.filter (fun s => decide (s ∉ x :: v))).length ≤
          (xs.filter (fun s => decide (s ∉ v))).length := by
        apply length_filter_mono
        intro s hs
        simp only [decide_eq_true_eq] at hs ⊢
        intro hsv; exact hs (List.mem_cons_of_mem _ hsv)
      exact Nat.lt_succ_of_le hmono
    · have hdxs : d ∈ xs := by
        rcases List.mem_cons.mp hd with h | h
        · exact absurd h.symm hxd
        · exact h
      have heq : (decide (x ∉ d :: v)) = (decide (x ∉ v)) := by
        by_cases hxv : x ∈ v
        · simp [hxv, List.mem_cons]
        · simp [hxv, List.mem_cons, hxd]
      cases hx : (decide (x ∉ v))
      · simp only [List.filter_cons, heq, hx, if_false]
        exact ih hdxs
      · simp only [List.filter_cons, heq, hx, if_true, List.length_cons]
        exact Nat.succ_lt_succ (ih hdxs)

/-- The destination of a followed symlink edge is among the graph's
symlink destinations. -/
lemma symlinkSucc_mem_dsts (t : FsTree) (cur d : String)
    (h : t.symlinkSucc cur = some d) : d ∈ t.symlinkDsts := by
  unfold FsTree.symlinkSucc at h
  rcases Option.map_eq_some'.mp h with ⟨e, hfind, hdst⟩
  have hmem : e ∈ t.edges := List.mem_of_find?_eq_some hfind
  have hpred := List.find?_some hfind
  simp only [Bool.and_eq_true] at hpred
  have hkind : (e.kind == EdgeKind.symlink) = true := hpred.2
  unfold FsTree.symlinkDsts
  subst hdst
  exact List.mem_map_of_mem _ (List.mem_filter.mpr ⟨hmem, hkind⟩)

/-- The resolver loop is fuel-indifferent once the fuel exceeds the number
of still-unvisited symlink destinations: the visited-set cycle guard, not
the fuel, is what stops it. -/
lemma resolveGo_stable (t : FsTree) :
    ∀ (n m : Nat) (visited : List String) (cur : String),
      (t.symlinkDsts.filter (fun s => decide (s ∉ visited))).length ≤ n →
      (t.symlinkDsts.filter (fun s => decide (s ∉ visited))).length ≤ m →
      resolveGo t (n + 1) visited cur = resolveGo t (m + 1) visited cur := by
  intro n
  induction n with
  | zero =>
    intro m visited cur hn _
    show (match t.ownerOf cur with
      | some u => some u
      | none => match t.symlinkSucc cur with
        | none => none
        | some d => if d ∈ visited then none else resolveGo t 0 (d :: visited) d) =
      (match t.ownerOf cur with
      | some u => some u
      | none => match t.symlinkSucc cur with
        | none => none
        | some d => if d ∈ visited then none else resolveGo t m (d :: visited) d)
    cases hown : t.ownerOf cur
    · cases hsucc : t.symlinkSucc cur
      · rfl
      · rename_i d
        by_cases hdv : d ∈ visited
        · simp [hdv]
        · exfalso
          have hd : d ∈ t.symlinkDsts := symlinkSucc_mem_dsts t cur d hsucc
          have : d ∈ t.symlinkDsts.filter (fun s => decide (s ∉ visited)) :=
            List.mem_filter.mpr ⟨hd, by simpa using hdv⟩
          have := List.length_pos.mpr (List.ne_nil_of_mem this)
          omega
    · rfl
  | succ n ih =>
    intro m visited cur hn hm
    show (match t.ownerOf cur with
      | some u => some u
      | none => match t.symlinkSucc cur with
        | none => none
        | some d => if d ∈ visited then none else resolveGo t (n + 1) (d :: visited) d) =
      (match t.ownerOf cur with
      | some u => some u
      | none => match t.symlinkSucc cur with
        | none => none
        | some d => if d ∈ visited then none else resolveGo t m (d :: visited) d)
    cases hown : t.ownerOf cur
    · cases hsucc : t.symlinkSucc cur
      · rfl
      · rename_i d
        by_cases hdv : d ∈ visited
        · simp [hdv]
        · simp only [if_neg hdv]
          have hd : d ∈ t.symlinkDsts := symlinkSucc_mem_dsts t cur d hsucc
          have hlt : (t.symlinkDsts.filter (fun s => decide (s ∉ d :: visited))).length <
              (t.symlinkDsts.filter (fun s => decide (s ∉ visited))).length :=
            length_filter_visit_lt _ _ _ hd hdv
          have hpos : 1 ≤ (t.symlinkDsts.filter (fun s => decide (s ∉ visited))).length := by
            have : d ∈ t.symlinkDsts.filter (fun s => decide (s ∉ visited)) :=
              List.mem_filter.mpr ⟨hd, by simpa using hdv⟩
            have := List.length_pos.mpr (List.ne_nil_of_mem this)
            omega
          obtain ⟨m', rfl⟩ : ∃ m', m = m' + 1 := ⟨m - 1, by omega⟩
          exact ih m' (d :: visited) d (by omega) (by omega)
    · rfl

/-- Looking up a key in a nonempty dict: the head binding answers when its
key matches, else the tail does. -/
lemma dictLookup_cons {α : Type} (k0 : String) (v0 : α) (tl : List (String × α))
    (k' : String) :
    dictLookup ((k0, v0) :: tl) k' = if k0 = k' then some v0 else dictLookup tl k' := by
  by_cases h : k0 = k'
  · subst h; simp [dictLookup, List.find?]
  · have hbeq : (k0 == k') = false := beq_eq_false_iff_ne.mpr h
    simp [dictLookup, List.find?, hbeq, h]

/-- Looking up a key after a dict assignment: the assigned key reads the new
value, other keys are unaffected. -/
lemma dictLookup_dictInsert {α : Type} (l : List (String × α)) (k : String)
    (v : α) (k' : String) :
    dictLookup (dictInsert l k v) k' = if k' = k then some v else dictLookup l k' := by
  induction l with
  | nil =>
    rw [show dictInsert ([] : List (String × α)) k v = [(k, v)] from rfl,
      dictLookup_cons]
    by_cases h : k' = k
    · simp [h]
    · rw [if_neg (fun hh => h hh.symm), if_neg h]
  | cons hd tl ih =>
    obtain ⟨k0, v0⟩ := hd
    by_cases h0 : k0 = k
    · subst h0
      rw [show dictInsert ((k0, v0) :: tl) k0 v = (k0, v) :: tl from by
        simp [dictInsert], dictLookup_cons, dictLookup_cons]
      by_cases h : k0 = k'
      · subst h; simp
      · rw [if_neg h, if_neg (fun hh : k' = k0 => h hh.symm), if_neg h]
    · rw [show dictInsert ((k0, v0) :: tl) k v = (k0, v0) :: dictInsert tl k v from by
        simp [dictInsert, h0], dictLookup_cons, dictLookup_cons]
      by_cases h : k0 = k'
      · subst h
        rw [if_pos rfl, if_neg (fun hh : k0 = k => h0 hh), if_pos rfl]
      · rw [if_neg h, ih, if_neg h]

/-- Folding dict assignments none of which touch key `e` leaves the lookup
of `e` unchanged. -/
lemma foldl_dictInsert_no_key {α : Type} (e : String) :
    ∀ (l : List (String × α)) (acc : List (String × α)),
      (∀ p ∈ l, p.1 ≠ e) →
      dictLookup (l.foldl (fun acc p => dictInsert acc p.1 p.2) acc) e =
        dictLookup acc e := by
  intro l
  induction l with
  | nil => intro acc _; rfl
  | cons p rest ih =>
    intro acc h
    have h1 : p.1 ≠ e := h p (by simp)
    rw [List.foldl_cons, ih (dictInsert acc p.1 p.2) (fun q hq => h q (by simp [hq])),
      dictLookup_dictInsert, if_neg (fun hh => h1 hh.symm)]

/-- Folding dict assignments that all write the same value `u` under key `e`,
at least one of which does write `e`, makes the lookup of `e` answer `u`. -/
lemma foldl_dictInsert_hits {α : Type} (e : String) (u : α) :
    ∀ (l : List (String × α)) (acc : List (String × α)),
      (∀ p ∈ l, p.1 = e → p.2 = u) →
      (∃ p ∈ l, p.1 = e) →
      dictLookup (l.foldl (fun acc p => dictInsert acc p.1 p.2) acc) e = some u := by
  intro l
  induction l with
  | nil => intro acc _ hex; simp at hex
  | cons p rest ih =>
    intro acc hall hex
    rw [List.foldl_cons]
    by_cases hrest : ∃ q ∈ rest, q.1 = e
    · exact ih (dictInsert acc p.1 p.2) (fun q hq => hall q (by simp [hq])) hrest
    · have hp : p.1 = e := by
        rcases hex with ⟨q, hq, hqe⟩
        rcases List.mem_cons.mp hq with rfl | hq'
        · exact hqe
        · exact absurd ⟨q, hq', hqe⟩ hrest
      have hv : p.2 = u := hall p (by simp) hp
      have hnone : ∀ q ∈ rest, q.1 ≠ e := by
        intro q hq hqe; exact hrest ⟨q, hq, hqe⟩
      rw [foldl_dictInsert_no_key e rest (dictInsert acc p.1 p.2) hnone,
        dictLookup_dictInsert, hp, if_pos rfl, hv]

/-- Every export pair a metadata record contributes carries that entry's UUID. -/
lemma metaExportPairs_snd (u : String) (mi : MetaItem) :
    ∀ p ∈ metaExportPairs u mi, p.2 = u := by
  intro p hp
  cases mi with
  | nonDict => simp [metaExportPairs] at hp
  | dict d =>
    cases hjc : d.javaClasses with
    | none => simp [metaExportPairs, hjc] at hp
    | some jc =>
      have hdef : metaExportPairs u (MetaItem.dict d) =
          if jc.isEmpty then []
          else jc.flatMap (fun ci => ci.2.javaExports.map (fun e => (e, u))) := by
        simp [metaExportPairs, hjc]
      rw [hdef] at hp
      by_cases hemp : jc.isEmpty = true
      · rw [if_pos hemp] at hp
        exact absurd hp (List.not_mem_nil p)
      · rw [if_neg hemp] at hp
        rcases List.mem_flatMap.mp hp with ⟨ci, _, hpe⟩
        rcases List.mem_map.mp hpe with ⟨e, _, hpeq⟩
        rw [← hpeq]

/-- Every export pair a software entry contributes carries its UUID. -/
lemma exportPairs_snd (sw : Software) : ∀ p ∈ exportPairs sw, p.2 = sw.UUID := by
  intro p hp
  rcases List.mem_flatMap.mp hp with ⟨mi, _, hpm⟩
  exact metaExportPairs_snd sw.UUID mi p hpm

/-- The per-token phase-1 UUID set is duplicate-free. -/
lemma nodup_pePhase1Uuids (sbom : SBOM) (sw : Software) (fname : String) :
    (pePhase1Uuids sbom sw fname).Nodup := by
  unfold pePhase1Uuids
  apply nodup_foldl _ ?_ _ _ List.nodup_nil
  intro acc dir h
  cases hm : sbom.get_software_by_path (normalize_path dir fname) true with
  | none => simpa [hm] using h
  | some m =>
    simp only [hm]
    by_cases hu : m.UUID ≠ sw.UUID
    · simpa [hu] using nodup_appendIfNew acc m.UUID h
    · simpa [hu] using h

/-- The per-token legacy UUID set is duplicate-free. -/
lemma nodup_peLegacyUuids (sbom : SBOM) (sw : Software) (fname : String) :
    (peLegacyUuids sbom sw fname).Nodup := by
  unfold peLegacyUuids
  apply nodup_foldl _ ?_ _ _ List.nodup_nil
  intro acc e h
  exact nodup_appendIfNew acc e.UUID h

/-- The matched UUID set for one token is duplicate-free. -/
lemma nodup_peTokenUuids (sbom : SBOM) (sw : Software) (fname : String) :
    (peTokenUuids sbom sw fname).Nodup := by
  unfold peTokenUuids
  by_cases h : (pePhase1Uuids sbom sw fname).isEmpty
  · simpa [h] using nodup_peLegacyUuids sbom sw fname
  · simpa [h] using nodup_pePhase1Uuids sbom sw fname

/-- When phase 1 found a match for a token, the matched set is the phase-1
set (the legacy fallback is not consulted). -/
lemma peTokenUuids_of_phase1 (sbom : SBOM) (sw : Software) (fname : String)
    (h : pePhase1Uuids sbom sw fname ≠ []) :
    peTokenUuids sbom sw fname = pePhase1Uuids sbom sw fname := by
  have he : (pePhase1Uuids sbom sw fname).isEmpty = false := by
    cases hl : pePhase1Uuids sbom sw fname with
    | nil => exact absurd hl h
    | cons a as => rfl
  simp [peTokenUuids, he]

/-- When phase 1 found nothing for a token, the matched set is the legacy
fallback's set. -/
lemma peTokenUuids_of_phase1_empty (sbom : SBOM) (sw : Software) (fname : String)
    (h : pePhase1Uuids sbom sw fname = []) :
    peTokenUuids sbom sw fname = peLegacyUuids sbom sw fname := by
  simp [peTokenUuids, h]

/-- A PE binary that imports its own file name (subject of the self-edge
analysis). -/
def selfSw : Software := { UUID := "uuid-a", installPath := some ["C:/app/foo.dll"] }

/-- A store containing only `selfSw`. -/
def selfSbom : SBOM := SBOM.empty.add_software selfSw

/-- PE metadata declaring a single direct import of `foo.dll`. -/
def selfMd : PEMetadata := { peImport := some ["foo.dll"] }

/-- A store whose only fs_tree content is the symlink cycle `/a -> /b -> /a`
with no owner tag on either node. -/
def cycleSbom : SBOM :=
  (SBOM.empty.record_symlink "/a" "/b" SymlinkKind.file).record_symlink
    "/b" "/a" SymlinkKind.file

/-- The libzmq entity of the round-trip scenario: installed at
`/usr/lib64/libzmq.so.5.2.6` with metadata declaring `libzmq.so` and
`libzmq.so.5` (and the corresponding `/usr/lib64/` paths) as symlink
aliases. -/
def libzmq : Software :=
  { UUID := "uuid-libzmq"
    fileName := ["libzmq.so.5.2.6"]
    installPath := some ["/usr/lib64/libzmq.so.5.2.6"]
    sha256 := some "abc123def456"
    metadata :=
      [MetaItem.dict { fileNameSymlinks := some ["libzmq.so", "libzmq.so.5"] },
       MetaItem.dict { installPathSymlinks := some ["/usr/lib64/libzmq.so", "/usr/lib64/libzmq.so.5"] }] }

/-- The pre-serialization store: libzmq added and both alias symlinks
recorded. -/
def zmqStore : SBOM :=
  ((SBOM.empty.add_software libzmq).record_symlink
      "/usr/lib64/libzmq.so" "/usr/lib64/libzmq.so.5.2.6" SymlinkKind.file).record_symlink
    "/usr/lib64/libzmq.so.5" "/usr/lib64/libzmq.so.5.2.6" SymlinkKind.file

/-- The store reconstructed from the serialized form of `zmqStore`. -/
def zmqRestored : SBOM := SBOM.from_serialized zmqStore.to_serialized

/-- A supplier DLL at `C:/app/foo.dll`. -/
def dupSupplier : Software :=
  { UUID := "uuid-sup", installPath := some ["C:/app/foo.dll"] }

/-- A PE binary next to `dupSupplier` that imports it. -/
def dupSw : Software := { UUID := "uuid-bar", installPath := some ["C:/app/bar.exe"] }

/-- A store holding the supplier and the importing binary. -/
def dupSbom : SBOM := (SBOM.empty.add_software dupSupplier).add_software dupSw

/-- PE metadata naming `foo.dll` under two different import kinds. -/
def dupMd : PEMetadata :=
  { peImport := some ["foo.dll"], peBoundImport := some ["foo.dll"] }

/-- A class file installed where the importer's probe location points. -/
def javaS : Software :=
  { UUID := "uuid-s", installPath := some ["/app/bin/com.example.HelloWorld"] }

/-- A Java importer with no exporter in the store. -/
def javaI : Software := { UUID := "uuid-i", installPath := some ["/app/bin/app.jar"] }

/-- A store with the class file and the importer, and no `javaExports`. -/
def javaSbom : SBOM := (SBOM.empty.add_software javaS).add_software javaI

/-- Java metadata of the importer declaring one class import. -/
def javaMd : MetaItem :=
  MetaItem.dict
    { javaClasses := some [("com.example.Main", { javaImports := ["com.example.HelloWorld"] })] }

/-- The earlier of two entries declaring the same Java export. -/
def expA : Software :=
  { UUID := "uuid-A"
    metadata := [MetaItem.dict { javaClasses := some [("A", { javaExports := ["com.example.Dup"] })] }] }

/-- The later of two entries declaring the same Java export. -/
def expB : Software :=
  { UUID := "uuid-B"
    metadata := [MetaItem.dict { javaClasses := some [("B", { javaExports := ["com.example.Dup"] })] }] }

/-- A store in which `expA` and then `expB` declare the same export. -/
def expSbom : SBOM := { software := [expA, expB] }

/-- A software entry without any install path. -/
def noPathSw : Software := { UUID := "uuid-nopath" }

/-- C1 (code bug evidence): evaluated at the failing input — a PE file at
`C:/app/foo.dll` importing its own name, alone in the store — the PE
resolver emits the self-referencing relationship `(uuid-a, uuid-a, Uses)`:
phase 1 resolves the probe path to the subject and excludes it, so the
phase-2 legacy fallback runs, matches the subject's own install path, and
the emission loop has no self filter. -/
theorem c1_pe_self_edge_emitted :
    pe_establish_relationships selfSbom selfSw selfMd =
      some [⟨"uuid-a", "uuid-a", "Uses"⟩] := by decide

/-- C4: path resolution terminates on every alias configuration.  On the
concrete cyclic store (`/a -> /b -> /a`, no owner tags) the lookup returns
`none`, and on any graph the resolver loop's result is independent of any
fuel beyond `fuelBound` — the visited-set cycle guard, not the fuel bound,
terminates the traversal. -/
theorem c4_cycle_guard_termination :
    cycleSbom.get_software_by_path "/a" false = none
    ∧ ∀ (t : FsTree) (start : String) (extra : Nat),
        t.resolveFuel (t.fuelBound + extra) start = t.resolveFuel t.fuelBound start := by
  constructor
  · decide
  · intro t start extra
    show resolveGo t (t.fuelBound + extra) [start] start =
      resolveGo t t.fuelBound [start] start
    have hlen : (t.symlinkDsts.filter (fun s => decide (s ∉ ([start] : List String)))).length ≤
        t.edges.length := by
      have h1 : (t.symlinkDsts.filter
          (fun s => decide (s ∉ ([start] : List String)))).length ≤
          t.symlinkDsts.length := List.length_filter_le _ _
      have h2 : t.symlinkDsts.length ≤ t.edges.length := by
        unfold FsTree.symlinkDsts
        rw [List.length_map]
        exact List.length_filter_le _ _
      omega
    have hb : t.fuelBound + extra = (t.edges.length + extra) + 1 := by
      show t.edges.length + 1 + extra = t.edges.length + extra + 1
      omega
    have hb2 : t.fuelBound = t.edges.length + 1 := rfl
    rw [hb, hb2]
    exact resolveGo_stable t (t.edges.length + extra) t.edges.length [start] start
      (by omega) (by omega)

/-- C3: the round-trip scenario — the store holding libzmq (UUID
`uuid-libzmq`) at `/usr/lib64/libzmq.so.5.2.6` with `libzmq.so` and
`libzmq.so.5` declared as symlink aliases, serialized and reconstructed,
resolves the primary path and both alias paths to the entity, and alias
resolution after the round-trip equals alias resolution before it. -/
theorem c3_serialization_roundtrip :
    ((zmqRestored.get_software_by_path "/usr/lib64/libzmq.so.5.2.6" false).map
        (·.UUID) = some "uuid-libzmq")
    ∧ ((zmqRestored.get_software_by_path "/usr/lib64/libzmq.so" false).map
        (·.UUID) = some "uuid-libzmq")
    ∧ ((zmqRestored.get_software_by_path "/usr/lib64/libzmq.so.5" false).map
        (·.UUID) = some "uuid-libzmq")
    ∧ (zmqRestored.get_software_by_path "/usr/lib64/libzmq.so.5.2.6" false =
        zmqStore.get_software_by_path "/usr/lib64/libzmq.so.5.2.6" false)
    ∧ (zmqRestored.get_software_by_path "/usr/lib64/libzmq.so" false =
        zmqStore.get_software_by_path "/usr/lib64/libzmq.so" false)
    ∧ (zmqRestored.get_software_by_path "/usr/lib64/libzmq.so.5" false =
        zmqStore.get_software_by_path "/usr/lib64/libzmq.so.5" false) := by
  refine ⟨by decide, by decide, by decide, by decide, by decide, by decide⟩

/-- C7 counterexample: with `foo.dll` declared under both `peImport` and
`peBoundImport`, resolving to the neighbouring supplier both times, the PE
resolver's returned list contains the triple
`(uuid-bar, uuid-sup, Uses)` twice — the per-kind lists are deduplicated
internally but concatenated without cross-kind deduplication. -/
theorem c7_cross_kind_duplicate_counterexample :
    pe_establish_relationships dupSbom dupSw dupMd =
      some [⟨"uuid-bar", "uuid-sup", "Uses"⟩, ⟨"uuid-bar", "uuid-sup", "Uses"⟩]
    ∧ ¬ ((pe_establish_relationships dupSbom dupSw dupMd).getD []).Nodup := by
  refine ⟨by decide, by decide⟩

/-- C2 counterexample: on a store where the spec's phase-1 recipe for the
Java resolver (probe the importer's install-path parents combined with the
token) resolves the token to `uuid-s`, the Java resolver nevertheless
returns no relationship at all: its phase 1 is not implemented and only the
(empty) legacy export dict is consulted. -/
theorem c2_java_phase1_missing_counterexample :
    javaPhase1Structural_spec javaSbom javaI "com.example.HelloWorld" = ["uuid-s"]
    ∧ java_establish_relationships javaSbom javaI javaMd = some [] := by
  refine ⟨by decide, by decide⟩

/-- C5: phase fallback precedence in the PE resolver — per import token, if
phase 1 (structural) found a match the matched set is exactly the phase-1
set, the legacy set is used only when phase 1 found nothing, and the token's
emitted relationships are exactly the matched set's `Uses` edges. -/
theorem c5_phase_fallback_precedence :
    ∀ (sbom : SBOM) (sw : Software) (fname : String),
      (pePhase1Uuids sbom sw fname ≠ [] →
        peTokenUuids sbom sw fname = pePhase1Uuids sbom sw fname)
      ∧ (pePhase1Uuids sbom sw fname = [] →
        peTokenUuids sbom sw fname = peLegacyUuids sbom sw fname)
      ∧ (sw.installPath.isSome = true → fname ≠ "" →
        get_windows_pe_dependencies sbom sw [fname] =
          (peTokenUuids sbom sw fname).map (fun u => ⟨sw.UUID, u, "Uses"⟩)) := by
  intro sbom sw fname
  refine ⟨peTokenUuids_of_phase1 sbom sw fname,
    peTokenUuids_of_phase1_empty sbom sw fname, ?_⟩
  intro hip hfn
  obtain ⟨l, hl⟩ := Option.isSome_iff_exists.mp hip
  unfold get_windows_pe_dependencies
  rw [hl]
  simp only [List.foldl_cons, List.foldl_nil]
  unfold peEmitToken
  rw [if_neg hfn]
  have hnin : ∀ u ∈ peTokenUuids sbom sw fname,
      (⟨sw.UUID, u, "Uses"⟩ : Relationship) ∉ ([] : List Relationship) := by
    intro u _ h
    exact absurd h (List.not_mem_nil _)
  rw [foldl_appendIfNew_map sw.UUID "Uses" (peTokenUuids sbom sw fname) []
    (nodup_peTokenUuids sbom sw fname) hnin]
  simp

/-- C5 witness: the precedence theorem applied at concrete stores — a token
phase 1 resolves (supplier next to the importer), a token phase 1 cannot
resolve (self import, deferred to legacy), and the emitted edge list of the
first. -/
theorem c5_phase_fallback_precedence_witness :
    (peTokenUuids dupSbom dupSw "foo.dll" = pePhase1Uuids dupSbom dupSw "foo.dll")
    ∧ (peTokenUuids selfSbom selfSw "foo.dll" = peLegacyUuids selfSbom selfSw "foo.dll")
    ∧ (get_windows_pe_dependencies dupSbom dupSw ["foo.dll"] =
        (peTokenUuids dupSbom dupSw "foo.dll").map (fun u => ⟨dupSw.UUID, u, "Uses"⟩)) :=
  ⟨(c5_phase_fallback_precedence dupSbom dupSw "foo.dll").1 (by decide),
   (c5_phase_fallback_precedence selfSbom selfSw "foo.dll").2.1 (by decide),
   (c5_phase_fallback_precedence dupSbom dupSw "foo.dll").2.2 (by decide) (by decide)⟩

/-- C6: missing required metadata keys (no `javaClasses` for Java, none of
the three PE import keys for PE) make the resolvers return nothing, and a PE
subject without an install path yields an empty dependency list — all
without any error value. -/
theorem c6_not_applicable_guards :
    ∀ (sbom : SBOM) (sw : Software),
      (∀ d : MetaDict, d.javaClasses = none →
        java_establish_relationships sbom sw (MetaItem.dict d) = none)
      ∧ (java_establish_relationships sbom sw MetaItem.nonDict = none)
      ∧ (∀ m : PEMetadata, m.peImport = none → m.peBoundImport = none →
          m.peDelayImport = none → pe_establish_relationships sbom sw m = none)
      ∧ (∀ imports : List String, sw.installPath = none →
          get_windows_pe_dependencies sbom sw imports = []) := by
  intro sbom sw
  refine ⟨?_, rfl, ?_, ?_⟩
  · intro d hd
    simp [java_establish_relationships, hd]
  · intro m h1 h2 h3
    simp [pe_establish_relationships, pe_has_required_fields, h1, h2, h3]
  · intro imports h
    simp [get_windows_pe_dependencies, h]

/-- C6 witness: the guards evaluated at concrete inputs — a metadata dict
without `javaClasses`, a non-dict metadata record, PE metadata without
any import key, and a subject with no install path. -/
theorem c6_not_applicable_guards_witness :
    (java_establish_relationships selfSbom selfSw (MetaItem.dict {}) = none)
    ∧ (java_establish_relationships selfSbom selfSw MetaItem.nonDict = none)
    ∧ (pe_establish_relationships selfSbom selfSw {} = none)
    ∧ (get_windows_pe_dependencies selfSbom noPathSw ["foo.dll"] = []) :=
  ⟨(c6_not_applicable_guards selfSbom selfSw).1 {} rfl,
   (c6_not_applicable_guards selfSbom selfSw).2.1,
   (c6_not_applicable_guards selfSbom selfSw).2.2.1 {} rfl rfl rfl,
   (c6_not_applicable_guards selfSbom noPathSw).2.2.2 ["foo.dll"] rfl⟩

/-- C7 amended: each single `get_windows_pe_dependencies` call (a single
per-kind list) and each Java resolver call returns a duplicate-free
relationship list; only the PE hook's concatenation across the three import
kinds can repeat a triple. -/
theorem c7_amended_per_call_dedup :
    (∀ (sbom : SBOM) (sw : Software) (imports : List String),
      (get_windows_pe_dependencies sbom sw imports).Nodup)
    ∧ (∀ (sbom : SBOM) (sw : Software) (md : MetaItem),
      ((java_establish_relationships sbom sw md).getD []).Nodup) := by
  constructor
  · intro sbom sw imports
    unfold get_windows_pe_dependencies
    cases hip : sw.installPath with
    | none => simp
    | some l =>
      apply nodup_foldl (peEmitToken sbom sw) ?_ imports [] List.nodup_nil
      intro acc fname h
      unfold peEmitToken
      by_cases hf : fname = ""
      · simpa [hf] using h
      · rw [if_neg hf]
        apply nodup_foldl _ ?_ _ _ h
        intro acc2 u h2
        exact nodup_appendIfNew acc2 _ h2
  · intro sbom sw md
    cases md with
    | nonDict => simp [java_establish_relationships]
    | dict d =>
      cases hjc : d.javaClasses with
      | none => simp [java_establish_relationships, hjc]
      | some jc =>
        simp only [java_establish_relationships, hjc, Option.getD_some]
        unfold javaResolveImports
        apply nodup_foldl _ ?_ _ _ List.nodup_nil
        intro acc ci h
        apply nodup_foldl _ ?_ _ _ h
        intro acc2 imp h2
        cases hl : dictLookup (buildExportMap sbom) imp with
        | none => simpa [hl] using h2
        | some u =>
          simp only [hl]
          by_cases hu : u ≠ "" ∧ u ≠ sw.UUID
          · simpa [hu] using nodup_appendIfNew acc2 _ h2
          · simpa [hu] using h2

/-- C2 amended: the PE resolver emits the phase-1 structural result with
priority (legacy only on phase-1 miss), while the Java resolver's phase 1 is
not implemented — its output depends on the store only through the legacy
export dict. -/
theorem c2_amended_two_phase_status :
    (∀ (sbom : SBOM) (sw : Software) (fname : String),
        pePhase1Uuids sbom sw fname ≠ [] →
        peTokenUuids sbom sw fname = pePhase1Uuids sbom sw fname)
    ∧ (∀ (s1 s2 : SBOM) (sw : Software) (md : MetaItem),
        buildExportMap s1 = buildExportMap s2 →
        java_establish_relationships s1 sw md = java_establish_relationships s2 sw md) := by
  constructor
  · exact peTokenUuids_of_phase1
  · intro s1 s2 sw md h
    cases md with
    | nonDict => rfl
    | dict d =>
      cases hjc : d.javaClasses with
      | none => simp [java_establish_relationships, hjc]
      | some jc => simp [java_establish_relationships, hjc, h]

/-- A store with the same software entries as `javaSbom` but none of its
filesystem graph. -/
def javaSbomNoFs : SBOM := { software := [javaS, javaI] }

/-- C2 amended witness: the PE phase-1 priority at the concrete supplier
store, and the Java resolver returning identical output on two stores with
equal export dicts but different filesystem graphs. -/
theorem c2_amended_two_phase_status_witness :
    (peTokenUuids dupSbom dupSw "foo.dll" = pePhase1Uuids dupSbom dupSw "foo.dll")
    ∧ (java_establish_relationships javaSbom javaI javaMd =
        java_establish_relationships javaSbomNoFs javaI javaMd) :=
  ⟨c2_amended_two_phase_status.1 dupSbom dupSw "foo.dll" (by decide),
   c2_amended_two_phase_status.2 javaSbom javaSbomNoFs javaI javaMd (by decide)⟩

/-- C8: the Java legacy export index is scoped to the identity of the store
instance — a call for the same instance leaves the state untouched, a call
for a different instance produces a state built solely from the new store
(independent of any previous table), so `get_supplier` after a rebuild never
answers from a previously processed store's mappings. -/
theorem c8_export_cache_scoping :
    ∀ (st : ExportDictState) (sid : Nat) (sbom : SBOM),
      (st.sbomRef = some sid → ExportDict.create_export_dict st sid sbom = st)
      ∧ (st.sbomRef ≠ some sid →
          ExportDict.create_export_dict st sid sbom =
            { sbomRef := some sid, supplied_by := buildExportMap sbom })
      ∧ (∀ (st' : ExportDictState) (k : String),
          st.sbomRef ≠ some sid → st'.sbomRef ≠ some sid →
          ExportDict.get_supplier (ExportDict.create_export_dict st sid sbom) k =
            ExportDict.get_supplier (ExportDict.create_export_dict st' sid sbom) k) := by
  intro st sid sbom
  refine ⟨?_, ?_, ?_⟩
  · intro h
    simp [ExportDict.create_export_dict, h]
  · intro h
    simp [ExportDict.create_export_dict, h]
  · intro st' k h h'
    simp [ExportDict.create_export_dict, h, h']

/-- A cached export state built from a previous store (identity token 1). -/
def staleState : ExportDictState :=
  { sbomRef := some 1, supplied_by := [("com.example.Dup", "uuid-stale")] }

/-- Another cached export state from yet another store (identity token 3). -/
def staleState2 : ExportDictState :=
  { sbomRef := some 3, supplied_by := [("com.example.Dup", "uuid-other")] }

/-- C8 witness: reuse for the same instance token, full rebuild for a new
one, and rebuild results independent of the prior cached mappings. -/
theorem c8_export_cache_scoping_witness :
    (ExportDict.create_export_dict staleState 1 expSbom = staleState)
    ∧ (ExportDict.create_export_dict staleState 2 expSbom =
        { sbomRef := some 2, supplied_by := buildExportMap expSbom })
    ∧ (ExportDict.get_supplier (ExportDict.create_export_dict staleState 2 expSbom)
          "com.example.Dup" =
        ExportDict.get_supplier (ExportDict.create_export_dict staleState2 2 expSbom)
          "com.example.Dup") :=
  ⟨(c8_export_cache_scoping staleState 1 expSbom).1 rfl,
   (c8_export_cache_scoping staleState 2 expSbom).2.1 (by decide),
   (c8_export_cache_scoping staleState 2 expSbom).2.2 staleState2 "com.example.Dup"
     (by decide) (by decide)⟩

/-- C9: when the same Java export symbol is declared by several entries, the
export dict maps it to the UUID of the entry encountered last in the store's
iteration order — for any store of the shape `xs ++ b :: ys` where `b`
declares the symbol and no entry after `b` does, `get_supplier`-style lookup
answers `b.UUID`, silently overwriting earlier declarers. -/
theorem c9_last_declarer_wins :
    ∀ (xs ys : List Software) (b : Software) (e : String),
      (∃ p ∈ exportPairs b, p.1 = e) →
      (∀ sw ∈ ys, ∀ p ∈ exportPairs sw, p.1 ≠ e) →
      dictLookup (buildExportMap { software := xs ++ b :: ys }) e = some b.UUID := by
  intro xs ys b e hb hys
  unfold buildExportMap
  have hsw : ({ software := xs ++ b :: ys } : SBOM).software = xs ++ b :: ys := rfl
  rw [hsw, List.flatMap_append, List.flatMap_cons, List.foldl_append,
    List.foldl_append]
  rw [foldl_dictInsert_no_key e _ _ ?hno]
  case hno =>
    intro p hp
    rcases List.mem_flatMap.mp hp with ⟨sw, hsw2, hpsw⟩
    exact hys sw hsw2 p hpsw
  exact foldl_dictInsert_hits e b.UUID (exportPairs b) _
    (fun p hp _ => exportPairs_snd b p hp) hb

/-- C9 witness: with `expA` then `expB` both declaring `com.example.Dup`,
the export dict answers the later entry's UUID. -/
theorem c9_last_declarer_wins_witness :
    dictLookup (buildExportMap { software := [expA] ++ expB :: [] })
      "com.example.Dup" = some expB.UUID :=
  c9_last_declarer_wins [expA] [] expB "com.example.Dup"
    ⟨("com.example.Dup", "uuid-B"), by decide, rfl⟩
    (fun sw hsw => absurd hsw (List.not_mem_nil sw))

/-- C10: `get_pconf` returns the default exactly in the falsy cases (falsy
`pluginConf`, falsy module value under `name`, falsy field value under
`conf_key`), raises KeyError when a non-empty `pluginConf` lacks `name` or
when the truthy mapping under `name` lacks `conf_key`, and returns the
stored field when it is truthy. -/
theorem c10_get_pconf_branches :
    ∀ (pc : List (String × PyVal)) (name conf_key : String) (dflt : PyVal),
      (get_pconf none name conf_key dflt = Except.ok dflt)
      ∧ (pc.isEmpty = true → get_pconf (some pc) name conf_key dflt = Except.ok dflt)
      ∧ (pc.isEmpty = false → dictLookup pc name = none →
          get_pconf (some pc) name conf_key dflt = Except.error (PyErr.keyError name))
      ∧ (∀ m : PyVal, pc.isEmpty = false → dictLookup pc name = some m →
          m.truthy = false → get_pconf (some pc) name conf_key dflt = Except.ok dflt)
      ∧ (∀ d : List (String × PyVal), pc.isEmpty = false →
          dictLookup pc name = some (PyVal.vDict d) → (PyVal.vDict d).truthy = true →
          dictLookup d conf_key = none →
          get_pconf (some pc) name conf_key dflt =
            Except.error (PyErr.keyError conf_key))
      ∧ (∀ (d : List (String × PyVal)) (v : PyVal), pc.isEmpty = false →
          dictLookup pc name = some (PyVal.vDict d) → (PyVal.vDict d).truthy = true →
          dictLookup d conf_key = some v → v.truthy = false →
          get_pconf (some pc) name conf_key dflt = Except.ok dflt)
      ∧ (∀ (d : List (String × PyVal)) (v : PyVal), pc.isEmpty = false →
          dictLookup pc name = some (PyVal.vDict d) → (PyVal.vDict d).truthy = true →
          dictLookup d conf_key = some v → v.truthy = true →
          get_pconf (some pc) name conf_key dflt = Except.ok v) := by
  intro pc name ck dflt
  refine ⟨rfl, ?_, ?_, ?_, ?_, ?_, ?_⟩
  · intro h1
    simp [get_pconf, h1]
  · intro h1 h2
    simp [get_pconf, h1, h2]
  · intro m h1 h2 h3
    simp [get_pconf, h1, h2, h3]
  · intro d h1 h2 h3 h4
    simp [get_pconf, PyVal.getItem, h1, h2, h3, h4]
  · intro d v h1 h2 h3 h4 h5
    simp [get_pconf, PyVal.getItem, h1, h2, h3, h4, h5]
  · intro d v h1 h2 h3 h4 h5
    simp [get_pconf, PyVal.getItem, h1, h2, h3, h4, h5]

/-- A sample plugin configuration: `plugA` maps to a dict with a truthy key
`k` and a falsy key `z`; `plugB` maps to a falsy (None) module value. -/
def pcSample : List (String × PyVal) :=
  [("plugA", PyVal.vDict [("k", PyVal.vStr "x"), ("z", PyVal.vInt 0)]),
   ("plugB", PyVal.vNone)]

/-- C10 witness: each branch of the `get_pconf` contract evaluated on the
sample configuration. -/
theorem c10_get_pconf_branches_witness :
    (get_pconf none "plugA" "k" PyVal.vNone = Except.ok PyVal.vNone)
    ∧ (get_pconf (some []) "plugA" "k" PyVal.vNone = Except.ok PyVal.vNone)
    ∧ (get_pconf (some pcSample) "plugC" "k" PyVal.vNone =
        Except.error (PyErr.keyError "plugC"))
    ∧ (get_pconf (some pcSample) "plugB" "k" (PyVal.vStr "dflt") =
        Except.ok (PyVal.vStr "dflt"))
    ∧ (get_pconf (some pcSample) "plugA" "missing" PyVal.vNone =
        Except.error (PyErr.keyError "missing"))
    ∧ (get_pconf (some pcSample) "plugA" "z" (PyVal.vStr "dflt") =
        Except.ok (PyVal.vStr "dflt"))
    ∧ (get_pconf (some pcSample) "plugA" "k" PyVal.vNone =
        Except.ok (PyVal.vStr "x")) :=
  ⟨(c10_get_pconf_branches [] "plugA" "k" PyVal.vNone).1,
   (c10_get_pconf_branches [] "plugA" "k" PyVal.vNone).2.1 rfl,
   (c10_get_pconf_branches pcSample "plugC" "k" PyVal.vNone).2.2.1 rfl rfl,
   (c10_get_pconf_branches pcSample "plugB" "k" (PyVal.vStr "dflt")).2.2.2.1
     PyVal.vNone rfl rfl rfl,
   (c10_get_pconf_branches pcSample "plugA" "missing" PyVal.vNone).2.2.2.2.1
     [("k", PyVal.vStr "x"), ("z", PyVal.vInt 0)] rfl rfl rfl rfl,
   (c10_get_pconf_branches pcSample "plugA" "z" (PyVal.vStr "dflt")).2.2.2.2.2.1
     [("k", PyVal.vStr "x"), ("z", PyVal.vInt 0)] (PyVal.vInt 0) rfl rfl rfl rfl rfl,
   (c10_get_pconf_branches pcSample "plugA" "k" PyVal.vNone).2.2.2.2.2.2
     [("k", PyVal.vStr "x"), ("z", PyVal.vInt 0)] (PyVal.vStr "x") rfl rfl rfl rfl rfl⟩
